import Mathlib

/-! Shallow embedding of `scanner/walk_dir_tree.go` (navidrome).

Modelling conventions:
* Paths are canonical segment lists (`List String`); `filepath.Join base name`
  is `base ++ [name]` and `filepath.Clean` is the identity on this canonical
  representation.
* Timestamps (`time.Time`) are `Nat`; `t1.After t2` is `t1 > t2`.
* The filesystem is a finite inductive tree `FSEntry`.  Each directory node
  records, as oracle fields, the outcome of the OS calls the walker performs
  on its (join-ed) path: `stat` is the result of `os.Stat` (follows symlinks;
  `none` models an error), `skipStat` is whether `os.Stat` of the ignore-marker
  file `consts.SkipScanFile` under the directory succeeds, `readable` is the
  external `utils.IsDirReadable` check, and `listing` is the result of
  `ioutil.ReadDir` (`none` models an error).  An entry that is a symbolic
  link to a directory carries the target's node inline (the walker resolves
  and descends through the link path); a link whose resolution fails is
  `linkBroken`.  The `mtime` stored on an entry is the `Lstat` timestamp
  returned for it by the parent's `ioutil.ReadDir`.
* The classifiers `utils.IsAudioFile` / `IsPlaylist` / `IsImageFile` are
  external collaborators and appear as an abstract `Classifiers` record of
  pure predicates on names.
* `context.Context` is threaded through the functions exactly as in the Go
  code (which uses it only for logging); it is modelled as a `WalkCtx`
  carrying the cancellation flag.
* Go `error` values are modelled by the path at which the failing OS call
  happened (the `*PathError` payload); `nil` is `none`.
* The result channel receives one `dirStats` per `results <- stats` and a
  single close signal; `walkDirTree` returns the ordered event sequence.
* `uint32` arithmetic (`stats.AudioFilesCount++`) wraps modulo `2 ^ 32`.
* The Go `for _, f := range files` loop threads a record of
  (children, ModTime-max, count, two flags) left to right; every component
  is updated by an associative-commutative operation with identity (append
  on the children list keeps listing order), so the loop is rendered as
  structural recursion on the entry list with the same per-entry updates.
-/

/-- Go struct `dirStats` from walk_dir_tree.go. -/
structure dirStats where
  Path : List String
  ModTime : Nat
  HasImages : Bool
  HasPlaylist : Bool
  AudioFilesCount : Nat
deriving DecidableEq

/-- External classifiers (`utils.IsAudioFile`, `utils.IsPlaylist`,
`utils.IsImageFile`): pure predicates on file names. -/
structure Classifiers where
  isAudioFile : String → Bool
  isPlaylist : String → Bool
  isImageFile : String → Bool

/-- Model of `context.Context`: the walker receives it and passes it on
(the Go code uses it only for logging); it carries the cancellation flag. -/
structure WalkCtx where
  cancelled : Bool

/-- One filesystem object, as observed by the walker.  See the module
comment for the reading of each field. -/
inductive FSEntry where
  /-- A regular (non-directory, non-symlink) file entry. -/
  | file (name : String) (mtime : Nat)
  /-- A symlink entry whose `os.Stat` resolution succeeds and yields a
  non-directory. -/
  | linkFile (name : String) (mtime : Nat)
  /-- A symlink entry whose `os.Stat` resolution fails (dangling target,
  permission error, ...). -/
  | linkBroken (name : String) (mtime : Nat)
  /-- A directory reachable at this entry's joined path: a real directory
  when `isLink = false` (then `Lstat.IsDir()` is true), or a symlink whose
  `os.Stat` target is a directory when `isLink = true`. -/
  | dir (name : String) (mtime : Nat) (isLink : Bool) (stat : Option Nat)
      (skipStat : Bool) (readable : Bool) (listing : Option (List FSEntry))

/-- Name of an entry as reported by `ioutil.ReadDir` (`f.Name()`). -/
def ename : FSEntry → String
  | .file n _ => n
  | .linkFile n _ => n
  | .linkBroken n _ => n
  | .dir n _ _ _ _ _ _ => n

/-- `Lstat` modification time of an entry as reported by the parent's
`ioutil.ReadDir` (`f.ModTime()`). -/
def emtime : FSEntry → Nat
  | .file _ m => m
  | .linkFile _ m => m
  | .linkBroken _ m => m
  | .dir _ m _ _ _ _ _ => m

/-- Modulus of Go's `uint32`. -/
def uint32Card : Nat := 4294967296

/-- Go `isDirOrSymlinkToDir`: true for a real directory (`f.IsDir()`);
for a symlink, resolve the joined path with `os.Stat` and report whether
the target is a directory, propagating a resolution error; false for a
plain file. -/
def isDirOrSymlinkToDir : FSEntry → Except Unit Bool
  | .file _ _ => .ok false
  | .linkFile _ _ => .ok false
  | .linkBroken _ _ => .error ()
  | .dir _ _ false _ _ _ _ => .ok true
  | .dir _ _ true stat _ _ _ =>
    match stat with
    | some _ => .ok true
    | none => .error ()

/-- Go `strings.HasPrefix(name, ".")`: the first character of the name is
`'.'` (the prefix is a single one-byte character, so the character-level
check is exact). -/
def startsWithDot (n : String) : Bool :=
  match n.data with
  | c :: _ => c == '.'
  | [] => false

/-- Go `isDirIgnored`: true when the entry name starts with `"."`, else
when `os.Stat` of the ignore-marker file under the entry's joined path
succeeds (`skipStat` of the resolved directory; the marker stat fails under
a non-directory path). -/
def isDirIgnored : FSEntry → Bool
  | .dir n _ _ _ sk _ _ => startsWithDot n || sk
  | e => startsWithDot (ename e)

/-- Go `isDirReadable`: the external `utils.IsDirReadable` on the entry's
joined path (a non-directory path is not a readable directory). -/
def isDirReadable : FSEntry → Bool
  | .dir _ _ _ _ _ rd _ => rd
  | _ => false

/-- The condition under which the `loadDir` loop treats an entry as a
subdirectory to recurse into: `isDir && !isDirIgnored(...) && isDirReadable(...)`,
with a failed symlink resolution skipping the entry beforehand. -/
def includedEntry (f : FSEntry) : Bool :=
  match isDirOrSymlinkToDir f with
  | .error _ => false
  | .ok d => d && !(isDirIgnored f) && isDirReadable f

/-- An entry that the `loadDir` loop processes in its `else` (leaf) branch:
its symlink resolution succeeded and it is not an included subdirectory. -/
def leafProcessed (f : FSEntry) : Bool :=
  match isDirOrSymlinkToDir f with
  | .error _ => false
  | .ok d => !(d && !(isDirIgnored f) && isDirReadable f)

/-- Running statistics accumulated by the `loadDir` loop over the raw
listing: maximum leaf `ModTime` seen (0 when none), audio count, and the
two flags. -/
structure LeafStats where
  maxMtime : Nat
  audio : Nat
  hasPlaylist : Bool
  hasImages : Bool

/-- The `for _, f := range files` loop of Go `loadDir`: skip entries whose
symlink resolution fails, collect included subdirectories (in listing
order), and fold every other entry into the leaf statistics, counting
audio files (uint32, wrapping) and otherwise OR-ing the playlist/image
classifiers. -/
def loadEntries (cl : Classifiers) : List FSEntry → List FSEntry × LeafStats
  | [] => ([], ⟨0, 0, false, false⟩)
  | f :: rest =>
    let r := loadEntries cl rest
    match isDirOrSymlinkToDir f with
    | .error _ => r
    | .ok d =>
      if d && !(isDirIgnored f) && isDirReadable f then
        (f :: r.1, r.2)
      else
        let s1 := { r.2 with maxMtime := max (emtime f) r.2.maxMtime }
        if cl.isAudioFile (ename f) then
          (r.1, { s1 with audio := (s1.audio + 1) % uint32Card })
        else
          (r.1, { s1 with
                  hasPlaylist := s1.hasPlaylist || cl.isPlaylist (ename f),
                  hasImages := s1.hasImages || cl.isImageFile (ename f) })

/-- Go `loadDir`: `os.Stat` the directory (error is fatal and carries the
path), seed `ModTime` from it, `ioutil.ReadDir` it (error fatal), then run
the entry loop.  Returns the subdirectories to recurse into and the
directory's statistics.  On a non-directory path `ioutil.ReadDir` fails. -/
def loadDir (cl : Classifiers) (dirPath : List String) (e : FSEntry) :
    Except (List String) (List FSEntry × dirStats) :=
  match e with
  | .dir _ _ _ none _ _ _ => .error dirPath
  | .dir _ _ _ (some _) _ _ none => .error dirPath
  | .dir _ _ _ (some m) _ _ (some files) =>
    let r := loadEntries cl files
    .ok (r.1, { Path := [], ModTime := max m r.2.maxMtime,
                HasImages := r.2.hasImages, HasPlaylist := r.2.hasPlaylist,
                AudioFilesCount := r.2.audio })
  | _ => .error dirPath

/-- `filepath.Clean` on the canonical segment representation (identity:
segment lists are already clean). -/
def filepathClean (p : List String) : List String := p

/-- The subdirectory list produced by the entry loop is a sublist of the
raw listing. -/
theorem loadEntries_fst_sublist (cl : Classifiers) :
    ∀ files : List FSEntry, List.Sublist (loadEntries cl files).1 files := by
  intro files
  induction files with
  | nil => simp [loadEntries]
  | cons f rest ih =>
    simp only [loadEntries]
    cases h : isDirOrSymlinkToDir f with
    | error e => exact ih.cons f
    | ok d =>
      by_cases hc : (d && !(isDirIgnored f) && isDirReadable f) = true
      · simp only [hc, if_true]
        exact ih.cons₂ f
      · simp only [hc, if_false]
        by_cases ha : cl.isAudioFile (ename f) = true <;>
          simp only [ha, if_true, if_false] <;> exact ih.cons f

/-- Sublists do not increase `sizeOf`. -/
theorem sizeOf_le_of_sublist {l₁ l₂ : List FSEntry} (h : List.Sublist l₁ l₂) :
    sizeOf l₁ ≤ sizeOf l₂ := by
  induction h with
  | slnil => simp
  | cons a h ih => simp only [List.cons.sizeOf_spec]; omega
  | cons₂ a h ih => simp only [List.cons.sizeOf_spec]; omega

/-- The subdirectory list returned by `loadDir` is structurally smaller
than the directory node it came from. -/
theorem loadDir_children_sizeOf {cl : Classifiers} {p : List String}
    {e : FSEntry} {children : List FSEntry} {stats : dirStats}
    (h : loadDir cl p e = .ok (children, stats)) : sizeOf children < sizeOf e := by
  cases e with
  | file n m => simp [loadDir] at h
  | linkFile n m => simp [loadDir] at h
  | linkBroken n m => simp [loadDir] at h
  | dir n m lk st sk rd lst =>
    cases st with
    | none => simp [loadDir] at h
    | some m' =>
      cases lst with
      | none => simp [loadDir] at h
      | some files =>
        simp only [loadDir, Except.ok.injEq, Prod.mk.injEq] at h
        have hsub := sizeOf_le_of_sublist (loadEntries_fst_sublist cl files)
        have : sizeOf children ≤ sizeOf files := by rw [h.1] at hsub; exact hsub
        simp only [FSEntry.dir.sizeOf_spec, Option.some.sizeOf_spec]
        omega

mutual
/-- Go `walkFolder`: load the current directory (an error aborts the walk
and is propagated), recurse into each subdirectory in listing order
(a child error aborts immediately), then emit the current directory's
record with its cleaned path.  Returns the records sent to the channel, in
order, and the error returned to the caller (`none` is `nil`). -/
def walkFolder (ctx : WalkCtx) (cl : Classifiers)
    (rootPath currentFolder : List String) (e : FSEntry) :
    List dirStats × Option (List String) :=
  match _hl : loadDir cl currentFolder e with
  | .error fp => ([], some fp)
  | .ok (children, stats) =>
    match walkChildren ctx cl rootPath currentFolder children with
    | (em, some fp) => (em, some fp)
    | (em, none) =>
      (em ++ [{ stats with Path := filepathClean currentFolder }], none)
termination_by sizeOf e
decreasing_by
  exact Nat.lt_of_le_of_lt (Nat.le_refl _) (loadDir_children_sizeOf _hl)

/-- The `for _, c := range children` loop of Go `walkFolder`: walk each
subdirectory in turn, returning on the first error. -/
def walkChildren (ctx : WalkCtx) (cl : Classifiers)
    (rootPath currentFolder : List String) :
    List FSEntry → List dirStats × Option (List String)
  | [] => ([], none)
  | c :: rest =>
    match walkFolder ctx cl rootPath (currentFolder ++ [ename c]) c with
    | (em, some fp) => (em, some fp)
    | (em, none) =>
      match walkChildren ctx cl rootPath currentFolder rest with
      | (em2, r) => (em ++ em2, r)
termination_by l => sizeOf l
decreasing_by
  · simp only [List.cons.sizeOf_spec]; omega
  · simp only [List.cons.sizeOf_spec]; omega
end

/-- One observable event on the result channel. -/
inductive WEvent where
  | record (s : dirStats)
  | closed
deriving DecidableEq

/-- True exactly on the channel-close event. -/
def isClosedEv : WEvent → Bool
  | .closed => true
  | _ => false

/-- Go `walkDirTree`: run `walkFolder` with the root as both `rootPath`
and `currentFolder`, then `close(results)` (exactly one close event, after
all records), and return the error to the caller. -/
def walkDirTree (ctx : WalkCtx) (cl : Classifiers) (rootFolder : List String)
    (e : FSEntry) : List WEvent × Option (List String) :=
  match walkFolder ctx cl rootFolder rootFolder e with
  | (em, r) => (em.map WEvent.record ++ [WEvent.closed], r)

/-- Unfolding of `includedEntry` when the symlink resolution succeeded. -/
theorem includedEntry_of_ok {f : FSEntry} {d : Bool}
    (h : isDirOrSymlinkToDir f = .ok d) :
    includedEntry f = (d && !(isDirIgnored f) && isDirReadable f) := by
  simp [includedEntry, h]

/-- An entry whose symlink resolution failed is not an included child. -/
theorem includedEntry_of_error {f : FSEntry}
    (h : isDirOrSymlinkToDir f = .error ()) : includedEntry f = false := by
  simp [includedEntry, h]

/-- Unfolding of `leafProcessed` when the symlink resolution succeeded. -/
theorem leafProcessed_of_ok {f : FSEntry} {d : Bool}
    (h : isDirOrSymlinkToDir f = .ok d) :
    leafProcessed f = !(d && !(isDirIgnored f) && isDirReadable f) := by
  simp [leafProcessed, h]

/-- An entry whose symlink resolution failed is not leaf-processed. -/
theorem leafProcessed_of_error {f : FSEntry}
    (h : isDirOrSymlinkToDir f = .error ()) : leafProcessed f = false := by
  simp [leafProcessed, h]

/-- The children collected by the entry loop are exactly the entries of the
raw listing satisfying the inclusion condition, in listing order. -/
theorem loadEntries_children (cl : Classifiers) :
    ∀ files : List FSEntry,
      (loadEntries cl files).1 = files.filter includedEntry := by
  intro files
  induction files with
  | nil => simp [loadEntries]
  | cons f rest ih =>
    cases h : isDirOrSymlinkToDir f with
    | error e =>
      cases e
      simp [loadEntries, h, includedEntry_of_error h, ih]
    | ok d =>
      have hinc := includedEntry_of_ok h
      by_cases hc : (d && !(isDirIgnored f) && isDirReadable f) = true
      · simp [loadEntries, h, hc, hinc, ih]
      · rw [Bool.not_eq_true] at hc
        by_cases ha : cl.isAudioFile (ename f) = true <;>
          simp [loadEntries, h, hc, hinc, ha, ih]

/-- Maximum over a list of naturals, 0 when empty. -/
def listMax (l : List Nat) : Nat := l.foldr max 0

/-- The running `ModTime` maximum computed by the entry loop is the maximum
of the `Lstat` times of the leaf-processed entries. -/
theorem loadEntries_maxMtime (cl : Classifiers) :
    ∀ files : List FSEntry,
      (loadEntries cl files).2.maxMtime =
        listMax ((files.filter leafProcessed).map emtime) := by
  intro files
  induction files with
  | nil => simp [loadEntries, listMax]
  | cons f rest ih =>
    cases h : isDirOrSymlinkToDir f with
    | error e =>
      cases e
      simp [loadEntries, h, leafProcessed_of_error h, ih]
    | ok d =>
      have hleaf := leafProcessed_of_ok h
      by_cases hc : (d && !(isDirIgnored f) && isDirReadable f) = true
      · simp [loadEntries, h, hc, hleaf, ih]
      · rw [Bool.not_eq_true] at hc
        by_cases ha : cl.isAudioFile (ename f) = true <;>
          simp [loadEntries, h, hc, hleaf, ha, ih, listMax]

/-- The audio counter computed by the entry loop is the number of
leaf-processed entries passing the audio classifier, reduced modulo
`2 ^ 32` by the wrapping `uint32` increment. -/
theorem loadEntries_audio (cl : Classifiers) :
    ∀ files : List FSEntry,
      (loadEntries cl files).2.audio =
        (files.filter
          (fun f => leafProcessed f && cl.isAudioFile (ename f))).length % uint32Card := by
  intro files
  induction files with
  | nil => simp [loadEntries]
  | cons f rest ih =>
    cases h : isDirOrSymlinkToDir f with
    | error e =>
      cases e
      simp [loadEntries, h, leafProcessed_of_error h, ih]
    | ok d =>
      have hleaf := leafProcessed_of_ok h
      by_cases hc : (d && !(isDirIgnored f) && isDirReadable f) = true
      · simp [loadEntries, h, hc, hleaf, ih]
      · rw [Bool.not_eq_true] at hc
        by_cases ha : cl.isAudioFile (ename f) = true
        · simp [loadEntries, h, hc, hleaf, ha, ih, Nat.mod_add_mod]
        · simp [loadEntries, h, hc, hleaf, ha, ih]

/-- The playlist flag computed by the entry loop: some leaf-processed entry
fails the audio classifier and passes the playlist classifier. -/
theorem loadEntries_hasPlaylist (cl : Classifiers) :
    ∀ files : List FSEntry,
      (loadEntries cl files).2.hasPlaylist =
        files.any (fun f =>
          leafProcessed f && !cl.isAudioFile (ename f) && cl.isPlaylist (ename f)) := by
  intro files
  induction files with
  | nil => simp [loadEntries]
  | cons f rest ih =>
    cases h : isDirOrSymlinkToDir f with
    | error e =>
      cases e
      simp [loadEntries, h, leafProcessed_of_error h, ih]
    | ok d =>
      have hleaf := leafProcessed_of_ok h
      by_cases hc : (d && !(isDirIgnored f) && isDirReadable f) = true
      · simp [loadEntries, h, hc, hleaf, ih]
      · rw [Bool.not_eq_true] at hc
        by_cases ha : cl.isAudioFile (ename f) = true
        · simp [loadEntries, h, hc, hleaf, ha, ih]
        · simp [loadEntries, h, hc, hleaf, ha, ih, Bool.or_comm]

/-- The image flag computed by the entry loop: some leaf-processed entry
fails the audio classifier and passes the image classifier. -/
theorem loadEntries_hasImages (cl : Classifiers) :
    ∀ files : List FSEntry,
      (loadEntries cl files).2.hasImages =
        files.any (fun f =>
          leafProcessed f && !cl.isAudioFile (ename f) && cl.isImageFile (ename f)) := by
  intro files
  induction files with
  | nil => simp [loadEntries]
  | cons f rest ih =>
    cases h : isDirOrSymlinkToDir f with
    | error e =>
      cases e
      simp [loadEntries, h, leafProcessed_of_error h, ih]
    | ok d =>
      have hleaf := leafProcessed_of_ok h
      by_cases hc : (d && !(isDirIgnored f) && isDirReadable f) = true
      · simp [loadEntries, h, hc, hleaf, ih]
      · rw [Bool.not_eq_true] at hc
        by_cases ha : cl.isAudioFile (ename f) = true
        · simp [loadEntries, h, hc, hleaf, ha, ih]
        · simp [loadEntries, h, hc, hleaf, ha, ih, Bool.or_comm]

/-- Unfolding `walkFolder` when loading the directory fails. -/
theorem walkFolder_error {cl : Classifiers} {p : List String} {e : FSEntry}
    {fp : List String} (ctx : WalkCtx) (rp : List String)
    (h : loadDir cl p e = .error fp) : walkFolder ctx cl rp p e = ([], some fp) := by
  rw [walkFolder.eq_def]
  split
  · rename_i fp' heq
    rw [h] at heq
    cases heq
    rfl
  · rename_i children stats heq
    rw [h] at heq
    cases heq

/-- Unfolding `walkFolder` when loading the directory succeeds. -/
theorem walkFolder_ok {cl : Classifiers} {p : List String} {e : FSEntry}
    {children : List FSEntry} {stats : dirStats} (ctx : WalkCtx) (rp : List String)
    (h : loadDir cl p e = .ok (children, stats)) :
    walkFolder ctx cl rp p e =
      match walkChildren ctx cl rp p children with
      | (em, some fp) => (em, some fp)
      | (em, none) => (em ++ [{ stats with Path := filepathClean p }], none) := by
  rw [walkFolder.eq_def]
  split
  · rename_i fp' heq
    rw [h] at heq
    cases heq
  · rename_i children' stats' heq
    rw [h] at heq
    cases heq
    rfl

/-- Unfolding `walkChildren` on the empty list. -/
theorem walkChildren_nil (ctx : WalkCtx) (cl : Classifiers) (rp p : List String) :
    walkChildren ctx cl rp p [] = ([], none) := by
  rw [walkChildren.eq_def]

/-- Unfolding `walkChildren` on a non-empty list. -/
theorem walkChildren_cons (ctx : WalkCtx) (cl : Classifiers) (rp p : List String)
    (c : FSEntry) (rest : List FSEntry) :
    walkChildren ctx cl rp p (c :: rest) =
      match walkFolder ctx cl rp (p ++ [ename c]) c with
      | (em, some fp) => (em, some fp)
      | (em, none) =>
        match walkChildren ctx cl rp p rest with
        | (em2, r) => (em ++ em2, r) := by
  rw [walkChildren.eq_def]

/-- The walk result does not depend on the context argument or on the
`rootPath` argument: the Go code only threads them through (the context is
used for logging alone and is never polled). -/
theorem walkFolder_ctx_indep (ctx : WalkCtx) (cl : Classifiers) (rp : List String) :
    ∀ (p : List String) (e : FSEntry) (ctx2 : WalkCtx) (rp2 : List String),
      walkFolder ctx cl rp p e = walkFolder ctx2 cl rp2 p e := by
  refine walkFolder.induct ctx cl rp
    (fun p e => ∀ ctx2 rp2, walkFolder ctx cl rp p e = walkFolder ctx2 cl rp2 p e)
    (fun p l => ∀ ctx2 rp2, walkChildren ctx cl rp p l = walkChildren ctx2 cl rp2 p l)
    ?_ ?_ ?_ ?_ ?_ ?_
  · intro p e fp h ctx2 rp2
    rw [walkFolder_error ctx rp h, walkFolder_error ctx2 rp2 h]
  · intro p e children stats h em fp _hw ih ctx2 rp2
    rw [walkFolder_ok ctx rp h, walkFolder_ok ctx2 rp2 h, ← ih ctx2 rp2]
  · intro p e children stats h em _hw ih ctx2 rp2
    rw [walkFolder_ok ctx rp h, walkFolder_ok ctx2 rp2 h, ← ih ctx2 rp2]
  · intro p ctx2 rp2
    rw [walkChildren_nil, walkChildren_nil]
  · intro p f rest em fp h ih1 ctx2 rp2
    rw [walkChildren_cons, walkChildren_cons, ← ih1 ctx2 rp2, h]
  · intro p f rest em h em2 r hrest ih1 ih2 ctx2 rp2
    rw [walkChildren_cons, walkChildren_cons, ← ih1 ctx2 rp2, h, ← ih2 ctx2 rp2]

/-- Path `p` is an ancestor of `q` or equal to it: a segment-wise prefix. -/
def pathLe (p q : List String) : Prop := ∃ s, p ++ s = q

/-- Path `p` is a strict ancestor of `q`. -/
def strictAnc (p q : List String) : Prop := ∃ s, s ≠ [] ∧ p ++ s = q

/-- Bottom-up emission order: no record is followed by a record of a strict
descendant directory (descendants always precede their ancestors). -/
def bottomUp (em : List dirStats) : Prop :=
  List.Pairwise (fun a b => ¬ strictAnc a.Path b.Path) em

theorem pathLe_refl (p : List String) : pathLe p p := ⟨[], List.append_nil p⟩

theorem pathLe_self_append (p s : List String) : pathLe p (p ++ s) := ⟨s, rfl⟩

theorem pathLe_trans {p q r : List String} (h1 : pathLe p q) (h2 : pathLe q r) :
    pathLe p r := by
  obtain ⟨s, hs⟩ := h1
  obtain ⟨t, ht⟩ := h2
  exact ⟨s ++ t, by rw [← List.append_assoc, hs, ht]⟩

theorem pathLe_of_child {p : List String} {n : String} {q : List String}
    (h : pathLe (p ++ [n]) q) : pathLe p q := by
  obtain ⟨s, hs⟩ := h
  exact ⟨n :: s, by simpa using hs⟩

theorem strictAnc_of_child {p : List String} {n : String} {q : List String}
    (h : pathLe (p ++ [n]) q) : strictAnc p q := by
  obtain ⟨s, hs⟩ := h
  exact ⟨n :: s, by simp, by simpa using hs⟩

/-- A path strictly below `p` is never a strict ancestor of `p`. -/
theorem not_strictAnc_ancestor {p q : List String} (h : strictAnc p q) :
    ¬ strictAnc q p := by
  obtain ⟨s, hs, rfl⟩ := h
  rintro ⟨t, ht, hEq⟩
  rw [List.append_assoc] at hEq
  conv_rhs at hEq => rw [← List.append_nil p]
  have := List.append_cancel_left hEq
  rcases s with _ | ⟨a, s⟩
  · exact hs rfl
  · simp at this

/-- Two child-name decompositions of a common path agree on the name. -/
theorem child_name_eq {p : List String} {n₁ n₂ : String} {s₁ s₂ : List String}
    (h : p ++ n₁ :: s₁ = p ++ n₂ :: s₂) : n₁ = n₂ := by
  have := List.append_cancel_left h
  exact (List.cons.injEq _ _ _ _ ▸ this).1

/-- A path below child `n₁` of `p` cannot be an ancestor of a path below a
different child `n₂` of `p`. -/
theorem not_pathLe_distinct_children {p a b : List String} {n₁ n₂ : String}
    (ha : pathLe (p ++ [n₁]) a) (hb : pathLe (p ++ [n₂]) b) (hne : n₁ ≠ n₂)
    (hab : pathLe a b) : False := by
  obtain ⟨s, rfl⟩ := ha
  obtain ⟨t, ht⟩ := hb
  obtain ⟨u, hu⟩ := hab
  apply hne
  rw [← hu] at ht
  have h2 : p ++ n₂ :: t = p ++ n₁ :: (s ++ u) := by simpa using ht
  exact (child_name_eq h2).symm

/-- A path below a child of `p` cannot be a strict ancestor of a path below
a different child of `p` (blocks under distinct siblings are unrelated). -/
theorem not_strictAnc_distinct_children {p a b : List String} {n₁ n₂ : String}
    (ha : pathLe (p ++ [n₁]) a) (hb : pathLe (p ++ [n₂]) b) (hne : n₁ ≠ n₂) :
    ¬ strictAnc a b := by
  rintro ⟨s, _, rfl⟩
  exact not_pathLe_distinct_children ha hb hne ⟨s, rfl⟩

mutual
/-- Well-formed filesystem: in every listing, entry names are pairwise
distinct (as on a real filesystem, where a directory cannot contain two
objects with the same name). -/
def FSEntry.wf : FSEntry → Prop
  | .dir _ _ _ _ _ _ (some files) => (files.map ename).Nodup ∧ wfAll files
  | _ => True

/-- All entries of a listing are well-formed. -/
def wfAll : List FSEntry → Prop
  | [] => True
  | e :: rest => FSEntry.wf e ∧ wfAll rest
end

theorem wfAll_mem {l : List FSEntry} (h : wfAll l) : ∀ e ∈ l, FSEntry.wf e := by
  induction l with
  | nil => intro e he; cases he
  | cons f rest ih =>
    intro e he
    rw [wfAll] at h
    rcases List.mem_cons.1 he with rfl | hm
    · exact h.1
    · exact ih h.2 e hm

/-- Inversion of a successful `loadDir`: the node is a listable directory
and the children are the included entries of its listing. -/
theorem loadDir_ok_inv {cl : Classifiers} {p : List String} {e : FSEntry}
    {children : List FSEntry} {stats : dirStats}
    (h : loadDir cl p e = .ok (children, stats)) :
    ∃ n mt lk m sk rd files, e = .dir n mt lk (some m) sk rd (some files) ∧
      children = files.filter includedEntry ∧
      stats = { Path := [], ModTime := max m (loadEntries cl files).2.maxMtime,
                HasImages := (loadEntries cl files).2.hasImages,
                HasPlaylist := (loadEntries cl files).2.hasPlaylist,
                AudioFilesCount := (loadEntries cl files).2.audio } := by
  cases e with
  | file n m => simp [loadDir] at h
  | linkFile n m => simp [loadDir] at h
  | linkBroken n m => simp [loadDir] at h
  | dir n mt lk st sk rd lst =>
    cases st with
    | none => simp [loadDir] at h
    | some m =>
      cases lst with
      | none => simp [loadDir] at h
      | some files =>
        simp only [loadDir, Except.ok.injEq, Prod.mk.injEq] at h
        exact ⟨n, mt, lk, m, sk, rd, files, rfl,
          by rw [← h.1, loadEntries_children], h.2.symm⟩

/-- A failing `loadDir` reports the path it was given. -/
theorem loadDir_error_eq {cl : Classifiers} {p : List String} {e : FSEntry}
    {fp : List String} (h : loadDir cl p e = .error fp) : fp = p := by
  cases e with
  | file n m => simp [loadDir] at h; exact h.symm
  | linkFile n m => simp [loadDir] at h; exact h.symm
  | linkBroken n m => simp [loadDir] at h; exact h.symm
  | dir n mt lk st sk rd lst =>
    cases st with
    | none => simp [loadDir] at h; exact h.symm
    | some m =>
      cases lst with
      | none => simp [loadDir] at h; exact h.symm
      | some files => simp [loadDir] at h

/-- Children delivered by a successful `loadDir` of a well-formed node have
pairwise distinct names and are themselves well-formed. -/
theorem loadDir_ok_wf {cl : Classifiers} {p : List String} {e : FSEntry}
    {children : List FSEntry} {stats : dirStats}
    (hwf : FSEntry.wf e) (h : loadDir cl p e = .ok (children, stats)) :
    (children.map ename).Nodup ∧ ∀ c ∈ children, FSEntry.wf c := by
  obtain ⟨n, mt, lk, m, sk, rd, files, rfl, hch, -⟩ := loadDir_ok_inv h
  rw [FSEntry.wf] at hwf
  constructor
  · exact List.Nodup.sublist (List.Sublist.map ename (hch ▸ List.filter_sublist files)) hwf.1
  · intro c hc
    exact wfAll_mem hwf.2 c (List.mem_of_mem_filter (hch ▸ hc))

/-- Master structural lemma for the walk over a well-formed tree: every
emitted record lies below the walked path, and below one of the included
children unless it is the directory's own record; on failure the failure
path lies below the walked path and no emitted record is an
ancestor-or-self of it; on success the walk emits its own record last,
everything before it lies strictly below the path, and the emission order
is bottom-up. -/
theorem walk_master (ctx : WalkCtx) (cl : Classifiers) (rp : List String) :
    ∀ (p : List String) (e : FSEntry), FSEntry.wf e →
      ∀ em res, walkFolder ctx cl rp p e = (em, res) →
        (∀ r ∈ em, pathLe p r.Path) ∧
        (∀ children stats, loadDir cl p e = .ok (children, stats) →
          ∀ r ∈ em, r.Path = p ∨ ∃ c ∈ children, pathLe (p ++ [ename c]) r.Path) ∧
        (∀ fp, res = some fp → pathLe p fp ∧ ∀ r ∈ em, ¬ pathLe r.Path fp) ∧
        (res = none → ∃ em₀ last, em = em₀ ++ [last] ∧ last.Path = p ∧
          (∀ r ∈ em₀, strictAnc p r.Path) ∧ bottomUp em) := by
  refine walkFolder.induct ctx cl rp
    (fun p e => FSEntry.wf e →
      ∀ em res, walkFolder ctx cl rp p e = (em, res) →
        (∀ r ∈ em, pathLe p r.Path) ∧
        (∀ children stats, loadDir cl p e = .ok (children, stats) →
          ∀ r ∈ em, r.Path = p ∨ ∃ c ∈ children, pathLe (p ++ [ename c]) r.Path) ∧
        (∀ fp, res = some fp → pathLe p fp ∧ ∀ r ∈ em, ¬ pathLe r.Path fp) ∧
        (res = none → ∃ em₀ last, em = em₀ ++ [last] ∧ last.Path = p ∧
          (∀ r ∈ em₀, strictAnc p r.Path) ∧ bottomUp em))
    (fun p l => (l.map ename).Nodup → (∀ c ∈ l, FSEntry.wf c) →
      ∀ em res, walkChildren ctx cl rp p l = (em, res) →
        (∀ r ∈ em, ∃ c ∈ l, pathLe (p ++ [ename c]) r.Path) ∧
        (∀ fp, res = some fp →
          (∃ c ∈ l, pathLe (p ++ [ename c]) fp) ∧ ∀ r ∈ em, ¬ pathLe r.Path fp) ∧
        (res = none → bottomUp em))
    ?_ ?_ ?_ ?_ ?_ ?_
  · -- loadDir fails: nothing emitted, the error is the current path
    intro p e fp₀ h _hwf em res heq
    rw [walkFolder_error ctx rp h] at heq
    cases heq
    refine ⟨by simp, ?_, ?_, by simp⟩
    · intro children stats hok
      rw [h] at hok
      cases hok
    · intro fp hfp
      cases hfp
      have : fp₀ = p := loadDir_error_eq h
      subst this
      exact ⟨pathLe_refl _, by simp⟩
  · -- loadDir ok, a child fails: pass the children properties through
    intro p e children stats h em₀ fp hw ih hwf em res heq
    have hv : walkFolder ctx cl rp p e = (em₀, some fp) := by
      rw [walkFolder_ok ctx rp h, hw]
    rw [hv] at heq
    cases heq
    obtain ⟨hnd, hcwf⟩ := loadDir_ok_wf hwf h
    obtain ⟨ih1, ih2, -⟩ := ih hnd hcwf em₀ (some fp) hw
    refine ⟨?_, ?_, ?_, by simp⟩
    · intro r hr
      obtain ⟨c, -, hle⟩ := ih1 r hr
      exact pathLe_of_child hle
    · intro children' stats' hok
      rw [h] at hok
      cases hok
      intro r hr
      exact Or.inr (ih1 r hr)
    · intro fp' hfp'
      cases hfp'
      obtain ⟨⟨c, -, hle⟩, hrec⟩ := ih2 fp rfl
      exact ⟨pathLe_of_child hle, hrec⟩
  · -- loadDir ok, all children succeed: emit own record last
    intro p e children stats h em₀ hw ih hwf em res heq
    have hv : walkFolder ctx cl rp p e =
        (em₀ ++ [{ stats with Path := filepathClean p }], none) := by
      rw [walkFolder_ok ctx rp h, hw]
    rw [hv] at heq
    cases heq
    obtain ⟨hnd, hcwf⟩ := loadDir_ok_wf hwf h
    obtain ⟨ih1, -, ih3⟩ := ih hnd hcwf em₀ none hw
    have hlast : ({ stats with Path := filepathClean p } : dirStats).Path = p := rfl
    refine ⟨?_, ?_, by simp, ?_⟩
    · intro r hr
      rcases List.mem_append.1 hr with hr | hr
      · obtain ⟨c, -, hle⟩ := ih1 r hr
        exact pathLe_of_child hle
      · rw [List.mem_singleton.1 hr, hlast]
        exact pathLe_refl p
    · intro children' stats' hok
      rw [h] at hok
      cases hok
      intro r hr
      rcases List.mem_append.1 hr with hr | hr
      · exact Or.inr (ih1 r hr)
      · exact Or.inl (by rw [List.mem_singleton.1 hr, hlast])
    · intro _
      refine ⟨em₀, { stats with Path := filepathClean p }, rfl, hlast, ?_, ?_⟩
      · intro r hr
        obtain ⟨c, -, hle⟩ := ih1 r hr
        exact strictAnc_of_child hle
      · rw [bottomUp, List.pairwise_append]
        refine ⟨ih3 rfl, List.pairwise_singleton _ _, ?_⟩
        intro a ha b hb
        rw [List.mem_singleton.1 hb, hlast]
        obtain ⟨c, -, hle⟩ := ih1 a ha
        exact not_strictAnc_ancestor (strictAnc_of_child hle)
  · -- empty child list
    intro p _hnd _hwfl em res heq
    rw [walkChildren_nil] at heq
    cases heq
    exact ⟨by simp, by simp, fun _ => List.Pairwise.nil⟩
  · -- first child fails
    intro p f rest em fp h ih1 hnd hwfl em' res' heq
    have hv : walkChildren ctx cl rp p (f :: rest) = (em, some fp) := by
      rw [walkChildren_cons, h]
    rw [hv] at heq
    cases heq
    obtain ⟨f1, -, f3, -⟩ :=
      ih1 (hwfl f (List.mem_cons_self f rest)) em (some fp) h
    refine ⟨?_, ?_, by simp⟩
    · intro r hr
      exact ⟨f, List.mem_cons_self f rest, f1 r hr⟩
    · intro fp' hfp'
      cases hfp'
      obtain ⟨hfp1, hfp2⟩ := f3 fp rfl
      exact ⟨⟨f, List.mem_cons_self f rest, hfp1⟩, hfp2⟩
  · -- first child succeeds, continue with the rest
    intro p f rest em h em2 r hrest ih1 ih2 hnd hwfl em' res' heq
    have hv : walkChildren ctx cl rp p (f :: rest) = (em ++ em2, r) := by
      rw [walkChildren_cons, h, hrest]
    rw [hv] at heq
    cases heq
    simp only [List.map_cons, List.nodup_cons] at hnd
    have hwf_f := hwfl f (List.mem_cons_self f rest)
    have hwfl_rest : ∀ c ∈ rest, FSEntry.wf c :=
      fun c hc => hwfl c (List.mem_cons_of_mem f hc)
    obtain ⟨f1, -, -, f4⟩ := ih1 hwf_f em none h
    obtain ⟨s1, s2, s3⟩ := ih2 hnd.2 hwfl_rest em2 r hrest
    have hneName : ∀ c ∈ rest, ename f ≠ ename c := by
      intro c hc hEq
      exact hnd.1 (hEq ▸ List.mem_map_of_mem ename hc)
    refine ⟨?_, ?_, ?_⟩
    · intro r' hr'
      rcases List.mem_append.1 hr' with hr' | hr'
      · exact ⟨f, List.mem_cons_self f rest, f1 r' hr'⟩
      · obtain ⟨c, hc, hle⟩ := s1 r' hr'
        exact ⟨c, List.mem_cons_of_mem f hc, hle⟩
    · intro fp hfp
      cases hfp
      obtain ⟨⟨c, hc, hlec⟩, hs2⟩ := s2 fp rfl
      refine ⟨⟨c, List.mem_cons_of_mem f hc, hlec⟩, ?_⟩
      intro r' hr' habs
      rcases List.mem_append.1 hr' with hr' | hr'
      · exact not_pathLe_distinct_children (f1 r' hr') hlec (hneName c hc) habs
      · exact hs2 r' hr' habs
    · intro hnone
      subst hnone
      obtain ⟨em₀f, lastf, -, -, -, buf⟩ := f4 rfl
      rw [bottomUp, List.pairwise_append]
      refine ⟨buf, s3 rfl, ?_⟩
      intro a ha b hb
      obtain ⟨c, hc, hlec⟩ := s1 b hb
      exact not_strictAnc_distinct_children (f1 a ha) hlec (hneName c hc)

mutual
/-- Height of a filesystem node: nesting depth of listable directories
(the recursion depth the walker needs below this node). -/
def FSEntry.height : FSEntry → Nat
  | .dir _ _ _ _ _ _ (some files) => heightList files + 1
  | _ => 0

/-- Maximum height of the entries of a listing. -/
def heightList : List FSEntry → Nat
  | [] => 0
  | e :: rest => max (FSEntry.height e) (heightList rest)
end

theorem height_le_heightList {l : List FSEntry} {c : FSEntry} (h : c ∈ l) :
    FSEntry.height c ≤ heightList l := by
  induction l with
  | nil => cases h
  | cons f rest ih =>
    rw [heightList]
    rcases List.mem_cons.1 h with rfl | hm
    · exact Nat.le_max_left _ _
    · exact Nat.le_trans (ih hm) (Nat.le_max_right _ _)

/-- Subdirectories returned by `loadDir` are strictly lower than the
directory they came from. -/
theorem loadDir_children_height {cl : Classifiers} {p : List String}
    {e : FSEntry} {children : List FSEntry} {stats : dirStats}
    (h : loadDir cl p e = .ok (children, stats)) :
    ∀ c ∈ children, FSEntry.height c < FSEntry.height e := by
  obtain ⟨n, mt, lk, m, sk, rd, files, rfl, hch, -⟩ := loadDir_ok_inv h
  intro c hc
  have hm : c ∈ files := List.mem_of_mem_filter (hch ▸ hc)
  calc FSEntry.height c ≤ heightList files := height_le_heightList hm
    _ < FSEntry.height (.dir n mt lk (some m) sk rd (some files)) := by
        rw [FSEntry.height]; omega

mutual
/-- Fuel-indexed rendering of the `walkFolder` recursion, modelling the
call stack of the Go code: each recursive descent consumes one unit of
fuel and exhausted fuel (`none`) stands for a recursion that does not
complete within that depth. -/
def walkFolderF (ctx : WalkCtx) (cl : Classifiers) (fuel : Nat)
    (rootPath currentFolder : List String) (e : FSEntry) :
    Option (List dirStats × Option (List String)) :=
  match fuel with
  | 0 => none
  | fuel' + 1 =>
    match loadDir cl currentFolder e with
    | .error fp => some ([], some fp)
    | .ok (children, stats) =>
      match walkChildrenF ctx cl fuel' rootPath currentFolder children with
      | none => none
      | some (em, some fp) => some (em, some fp)
      | some (em, none) =>
        some (em ++ [{ stats with Path := filepathClean currentFolder }], none)
termination_by (fuel, 0, 0)

/-- Fuel-indexed rendering of the child loop of `walkFolder`. -/
def walkChildrenF (ctx : WalkCtx) (cl : Classifiers) (fuel : Nat)
    (rootPath currentFolder : List String) :
    List FSEntry → Option (List dirStats × Option (List String))
  | [] => some ([], none)
  | c :: rest =>
    match walkFolderF ctx cl fuel rootPath (currentFolder ++ [ename c]) c with
    | none => none
    | some (em, some fp) => some (em, some fp)
    | some (em, none) =>
      match walkChildrenF ctx cl fuel rootPath currentFolder rest with
      | none => none
      | some (em2, r) => some (em ++ em2, r)
termination_by l => (fuel, 1, l.length)
end

/-- With fuel exceeding the height of the node, the fuel-indexed walk
completes and agrees with the total walk (joint statement with the child
loop). -/
theorem walkF_complete (ctx : WalkCtx) (cl : Classifiers) (rp : List String) :
    ∀ fuel : Nat,
      (∀ p e, FSEntry.height e < fuel →
        walkFolderF ctx cl fuel rp p e = some (walkFolder ctx cl rp p e)) ∧
      (∀ p (l : List FSEntry), (∀ c ∈ l, FSEntry.height c < fuel) →
        walkChildrenF ctx cl fuel rp p l = some (walkChildren ctx cl rp p l)) := by
  intro fuel
  induction fuel with
  | zero =>
    constructor
    · intro p e h
      omega
    · intro p l hl
      cases l with
      | nil => rw [walkChildrenF, walkChildren_nil]
      | cons c rest => exact absurd (hl c (List.mem_cons_self c rest)) (by omega)
  | succ fuel ih =>
    have hfolder : ∀ p e, FSEntry.height e < fuel + 1 →
        walkFolderF ctx cl (fuel + 1) rp p e = some (walkFolder ctx cl rp p e) := by
      intro p e hh
      rw [walkFolderF]
      cases hld : loadDir cl p e with
      | error fp =>
        rw [walkFolder_error ctx rp hld]
      | ok cs =>
        obtain ⟨children, stats⟩ := cs
        have hch : ∀ c ∈ children, FSEntry.height c < fuel := by
          intro c hc
          have h1 := loadDir_children_height hld c hc
          omega
        dsimp only
        rw [ih.2 p children hch, walkFolder_ok ctx rp hld]
        cases hwc : walkChildren ctx cl rp p children with
        | mk em r =>
          cases r with
          | none => rfl
          | some fp => rfl
    refine ⟨hfolder, ?_⟩
    intro p l
    induction l with
    | nil =>
      intro _
      rw [walkChildrenF, walkChildren_nil]
    | cons c rest ihl =>
      intro hl
      rw [walkChildrenF, walkChildren_cons,
        hfolder (p ++ [ename c]) c (hl c (List.mem_cons_self c rest)),
        ihl (fun x hx => hl x (List.mem_cons_of_mem c hx))]
      cases hwf : walkFolder ctx cl rp (p ++ [ename c]) c with
      | mk em r =>
        cases r with
        | none =>
          cases hwr : walkChildren ctx cl rp p rest with
          | mk em2 r2 => rfl
        | some fp => rfl

/-- Computation of `loadDir` on a statable, listable directory node. -/
theorem loadDir_dir_some (cl : Classifiers) (p : List String) (n : String)
    (mt : Nat) (lk : Bool) (m : Nat) (sk rd : Bool) (files : List FSEntry) :
    loadDir cl p (.dir n mt lk (some m) sk rd (some files)) =
      .ok ((loadEntries cl files).1,
        { Path := [], ModTime := max m (loadEntries cl files).2.maxMtime,
          HasImages := (loadEntries cl files).2.hasImages,
          HasPlaylist := (loadEntries cl files).2.hasPlaylist,
          AudioFilesCount := (loadEntries cl files).2.audio }) := rfl

/-- `loadDir` fails on a directory whose `os.Stat` fails. -/
theorem loadDir_stat_error (cl : Classifiers) (p : List String) (n : String)
    (mt : Nat) (lk : Bool) (sk rd : Bool) (lst : Option (List FSEntry)) :
    loadDir cl p (.dir n mt lk none sk rd lst) = .error p := rfl

/-- `loadDir` fails on a directory whose `ioutil.ReadDir` fails. -/
theorem loadDir_list_error (cl : Classifiers) (p : List String) (n : String)
    (mt : Nat) (lk : Bool) (m : Nat) (sk rd : Bool) :
    loadDir cl p (.dir n mt lk (some m) sk rd none) = .error p := rfl

/-- The head step of the entry loop is determined by the head entry and the
outcome on the tail. -/
theorem loadEntries_cons_congr (cl : Classifiers) (f : FSEntry)
    {L1 L2 : List FSEntry} (h : loadEntries cl L1 = loadEntries cl L2) :
    loadEntries cl (f :: L1) = loadEntries cl (f :: L2) := by
  simp only [loadEntries, h]

/-- Inserting an entry whose symlink resolution fails anywhere in a listing
does not change the outcome of the entry loop at all. -/
theorem loadEntries_skip_insert (cl : Classifiers) {b : FSEntry}
    (hb : isDirOrSymlinkToDir b = .error ()) :
    ∀ l1 l2 : List FSEntry,
      loadEntries cl (l1 ++ b :: l2) = loadEntries cl (l1 ++ l2) := by
  intro l1
  induction l1 with
  | nil =>
    intro l2
    simp [loadEntries, hb]
  | cons f rest ih =>
    intro l2
    rw [List.cons_append, List.cons_append]
    exact loadEntries_cons_congr cl f (ih l2)

/-- An excluded subdirectory candidate behaves in the entry loop exactly
like a plain file with the same name and `Lstat` time. -/
theorem loadEntries_excluded_dir (cl : Classifiers) {d : FSEntry}
    (hd : isDirOrSymlinkToDir d = .ok true)
    (hex : (!(isDirIgnored d) && isDirReadable d) = false) :
    ∀ l1 l2 : List FSEntry,
      loadEntries cl (l1 ++ d :: l2) =
        loadEntries cl (l1 ++ FSEntry.file (ename d) (emtime d) :: l2) := by
  intro l1
  induction l1 with
  | nil =>
    intro l2
    have hfile : isDirOrSymlinkToDir (FSEntry.file (ename d) (emtime d)) = .ok false := rfl
    simp only [List.nil_append, loadEntries, hd, hfile]
    rw [Bool.true_and, hex]
    simp [ename, emtime]
  | cons f rest ih =>
    intro l2
    rw [List.cons_append, List.cons_append]
    exact loadEntries_cons_congr cl f (ih l2)

/-- Members bound the fold maximum. -/
theorem le_listMax {l : List Nat} {a : Nat} (h : a ∈ l) : a ≤ listMax l := by
  induction l with
  | nil => cases h
  | cons x rest ih =>
    rw [listMax, List.foldr_cons]
    rcases List.mem_cons.1 h with rfl | hm
    · exact Nat.le_max_left _ _
    · exact Nat.le_trans (ih hm) (Nat.le_max_right _ _)

/-- A plain file entry is always processed in the leaf branch. -/
theorem leafProcessed_file (n : String) (m : Nat) :
    leafProcessed (.file n m) = true := by
  simp [leafProcessed, isDirOrSymlinkToDir]

/-- A resolvable symlink to a non-directory is always processed in the leaf
branch. -/
theorem leafProcessed_linkFile (n : String) (m : Nat) :
    leafProcessed (.linkFile n m) = true := by
  simp [leafProcessed, isDirOrSymlinkToDir]

/-- The running maximum of the entry loop dominates the `Lstat` time of
every leaf-processed entry of the listing. -/
theorem loadEntries_maxMtime_ge (cl : Classifiers) {files : List FSEntry}
    {f : FSEntry} (hm : f ∈ files) (hl : leafProcessed f = true) :
    emtime f ≤ (loadEntries cl files).2.maxMtime := by
  rw [loadEntries_maxMtime]
  exact le_listMax (List.mem_map_of_mem emtime (List.mem_filter.2 ⟨hm, hl⟩))

/-- A hidden name makes `isDirIgnored` true whatever the ignore-marker stat
returned (the short-circuit `||` never consults it). -/
theorem isDirIgnored_hidden {n : String} (mt : Nat) (lk : Bool)
    (st : Option Nat) (sk rd : Bool) (lst : Option (List FSEntry))
    (h : startsWithDot n = true) :
    isDirIgnored (.dir n mt lk st sk rd lst) = true := by
  simp [isDirIgnored, h]

/-- On a non-hidden directory name, `isDirIgnored` is exactly the outcome
of the ignore-marker stat. -/
theorem isDirIgnored_not_hidden {n : String} (mt : Nat) (lk : Bool)
    (st : Option Nat) (sk rd : Bool) (lst : Option (List FSEntry))
    (h : startsWithDot n = false) :
    isDirIgnored (.dir n mt lk st sk rd lst) = sk := by
  simp [isDirIgnored, h]

/-- An ignored entry is never included, whatever its readability. -/
theorem includedEntry_of_ignored {f : FSEntry} (h : isDirIgnored f = true) :
    includedEntry f = false := by
  rw [includedEntry]
  cases hh : isDirOrSymlinkToDir f with
  | error e => rfl
  | ok d => simp [h]

/-- For a non-ignored subdirectory candidate, inclusion is exactly the
readability check. -/
theorem includedEntry_of_candidate {f : FSEntry}
    (hc : isDirOrSymlinkToDir f = .ok true) (h : isDirIgnored f = false) :
    includedEntry f = isDirReadable f := by
  rw [includedEntry, hc, h]
  simp

/-- The event sequence of `walkDirTree` in terms of `walkFolder`. -/
theorem walkDirTree_eq (ctx : WalkCtx) (cl : Classifiers) (rf : List String)
    (e : FSEntry) {em : List dirStats} {res : Option (List String)}
    (h : walkFolder ctx cl rf rf e = (em, res)) :
    walkDirTree ctx cl rf e = (em.map WEvent.record ++ [WEvent.closed], res) := by
  rw [walkDirTree, h]

/-- Any record-then-close event sequence carries exactly one close event. -/
theorem countP_closed_events :
    ∀ em : List dirStats,
      (em.map WEvent.record ++ [WEvent.closed]).countP isClosedEv = 1 := by
  intro em
  induction em with
  | nil => rfl
  | cons s rest ih =>
    simp only [List.map_cons, List.cons_append, List.countP_cons]
    rw [ih]
    rfl

/-- Evaluation rule: directory loads, all children walked without error. -/
theorem walkFolder_ok_none {cl : Classifiers} {p : List String} {e : FSEntry}
    {children : List FSEntry} {stats : dirStats} {em : List dirStats}
    (ctx : WalkCtx) (rp : List String)
    (h : loadDir cl p e = .ok (children, stats))
    (hw : walkChildren ctx cl rp p children = (em, none)) :
    walkFolder ctx cl rp p e =
      (em ++ [{ stats with Path := filepathClean p }], none) := by
  rw [walkFolder_ok ctx rp h, hw]

/-- Evaluation rule: directory loads, a child walk fails. -/
theorem walkFolder_ok_some {cl : Classifiers} {p : List String} {e : FSEntry}
    {children : List FSEntry} {stats : dirStats} {em : List dirStats}
    {fp : List String} (ctx : WalkCtx) (rp : List String)
    (h : loadDir cl p e = .ok (children, stats))
    (hw : walkChildren ctx cl rp p children = (em, some fp)) :
    walkFolder ctx cl rp p e = (em, some fp) := by
  rw [walkFolder_ok ctx rp h, hw]

/-- Evaluation rule: first child walked without error, loop continues. -/
theorem walkChildren_cons_ok {ctx : WalkCtx} {cl : Classifiers}
    {rp p : List String} {c : FSEntry} {rest : List FSEntry}
    {em em2 : List dirStats} {r : Option (List String)}
    (hc : walkFolder ctx cl rp (p ++ [ename c]) c = (em, none))
    (hrest : walkChildren ctx cl rp p rest = (em2, r)) :
    walkChildren ctx cl rp p (c :: rest) = (em ++ em2, r) := by
  rw [walkChildren_cons, hc, hrest]

/-- Evaluation rule: first child fails, loop aborts. -/
theorem walkChildren_cons_err {ctx : WalkCtx} {cl : Classifiers}
    {rp p : List String} {c : FSEntry} {rest : List FSEntry}
    {em : List dirStats} {fp : List String}
    (hc : walkFolder ctx cl rp (p ++ [ename c]) c = (em, some fp)) :
    walkChildren ctx cl rp p (c :: rest) = (em, some fp) := by
  rw [walkChildren_cons, hc]

/-- Concrete classifiers used by witnesses and counterexamples:
name-equality predicates (classifiers are pure functions of the name). -/
def clW : Classifiers :=
  ⟨fun n => n == "song.mp3" || n == ".x.mp3",
   fun n => n == "p.m3u",
   fun n => n == "i.jpg"⟩

/-- A context whose cancellation token has not fired. -/
def ctxW : WalkCtx := ⟨false⟩

/-- A context whose cancellation token fired before the walk started. -/
def ctxOn : WalkCtx := ⟨true⟩

/-- Concrete ordinary subdirectory `a` holding one audio file. -/
def eA : FSEntry := .dir "a" 1 false (some 1) false true (some [.file "song.mp3" 7])

/-- Concrete hidden subdirectory. -/
def eHidden : FSEntry :=
  .dir ".hidden" 10 false (some 2) false true (some [.file "x.mp3" 3])

/-- Concrete subdirectory containing the ignore-marker file. -/
def eMarked : FSEntry := .dir "b" 2 false (some 2) true true (some [.file "c.mp3" 3])

/-- Concrete root listing with one included, one hidden and one
ignore-marked subdirectory. -/
def exScenario : List FSEntry := [eA, eHidden, eMarked]

/-- Concrete tree: a root (stat time 5) over `exScenario`. -/
def tScenario : FSEntry := .dir "root" 0 false (some 5) false true (some exScenario)

/-- Concrete tree whose root cannot be listed (`ioutil.ReadDir` fails). -/
def tRootFail : FSEntry := .dir "r" 0 false (some 0) false true none

/-- Concrete tree whose second subdirectory cannot be listed. -/
def tChildFail : FSEntry :=
  .dir "root" 0 false (some 0) false true (some [
    .dir "a" 1 false (some 1) false true (some [.file "song.mp3" 7]),
    .dir "b" 1 false (some 1) false true none])

/-- Concrete tree with one subdirectory, for the cancellation analysis. -/
def tCancel : FSEntry :=
  .dir "root" 0 false (some 0) false true (some [
    .dir "a" 0 false (some 0) false true (some [])])

/-- Listing holding a single hidden (hence excluded) subdirectory with
`Lstat` time 10. -/
def exHidden : List FSEntry :=
  [.dir ".h" 10 false (some 10) false true (some [])]

/-- Root with stat time 5 over `exHidden`. -/
def tHidden : FSEntry := .dir "root" 0 false (some 5) false true (some exHidden)

/-- Listing holding a single hidden subdirectory whose name passes the
audio classifier of `clW`. -/
def exAudioDir : List FSEntry :=
  [.dir ".x.mp3" 3 false (some 0) false true (some [])]

/-- Root with stat time 0 over `exAudioDir`. -/
def tAudioDir : FSEntry := .dir "root" 0 false (some 0) false true (some exAudioDir)

/-- Spec-side comparison predicate, following the spec's words: a "direct
non-directory entry" — not a subdirectory candidate (real directory or
symlink resolving to a directory) and not a skipped invalid symlink. -/
def specNonDirEntry : FSEntry → Bool
  | .file _ _ => true
  | .linkFile _ _ => true
  | .linkBroken _ _ => false
  | .dir _ _ _ _ _ _ _ => false

/-- Spec-side comparison definition, following the spec's words for C4:
"`modTime`: timestamp = max(the directory inode's own modification time,
the modification time of every direct non-directory entry inside it)" —
directory entries, recursed into or excluded, contribute nothing. -/
def specModTime (statM : Nat) (files : List FSEntry) : Nat :=
  max statM (listMax ((files.filter specNonDirEntry).map emtime))

/-- Spec-side comparison definition, following the spec's words for C5:
the number of direct file (non-directory) entries whose name passes the
audio classifier. -/
def specAudioCount (cl : Classifiers) (files : List FSEntry) : Nat :=
  (files.filter (fun f => specNonDirEntry f && cl.isAudioFile (ename f))).length

/-- The record `walkFolder` emits for a directory with stat time `m` and
listing `files`, walked at path `p`. -/
def dirRecord (cl : Classifiers) (p : List String) (m : Nat)
    (files : List FSEntry) : dirStats where
  Path := filepathClean p
  ModTime := max m (loadEntries cl files).2.maxMtime
  HasImages := (loadEntries cl files).2.hasImages
  HasPlaylist := (loadEntries cl files).2.hasPlaylist
  AudioFilesCount := (loadEntries cl files).2.audio

/-- Successful walk of a statable, listable directory: the emission ends
with the directory's own record, carrying the statistics computed by the
entry loop. -/
theorem walkFolder_dir_success (ctx : WalkCtx) (cl : Classifiers)
    (rp p : List String) (n : String) (mt : Nat) (lk : Bool) (m : Nat)
    (sk rd : Bool) (files : List FSEntry) (em : List dirStats)
    (h : walkFolder ctx cl rp p (.dir n mt lk (some m) sk rd (some files)) = (em, none)) :
    ∃ em₀, em = em₀ ++ [dirRecord cl p m files] := by
  cases hwc : walkChildren ctx cl rp p (loadEntries cl files).1 with
  | mk emc rc =>
    cases rc with
    | some fp =>
      have hv : walkFolder ctx cl rp p (.dir n mt lk (some m) sk rd (some files)) =
          (emc, some fp) := by
        rw [walkFolder_ok ctx rp (loadDir_dir_some cl p n mt lk m sk rd files), hwc]
      rw [hv] at h
      exact absurd (congrArg Prod.snd h) (by simp)
    | none =>
      have hv : walkFolder ctx cl rp p (.dir n mt lk (some m) sk rd (some files)) =
          (emc ++ [dirRecord cl p m files], none) := by
        rw [walkFolder_ok ctx rp (loadDir_dir_some cl p n mt lk m sk rd files), hwc]
        rfl
      rw [hv] at h
      exact ⟨emc, (congrArg Prod.fst h).symm⟩

/-- C1: for every walk that completes without error, the emitted sequence
of records is bottom-up — no record is ever followed by a record of a
strict descendant directory, so for included directories D (descendant)
and A (ancestor), D's record appears strictly before A's — and the walked
root directory's record, at the cleaned walk path, is the last element
emitted.  The well-formedness hypothesis states that entry names are
pairwise distinct within each listing, as on a real filesystem. -/
theorem walkFolder_bottom_up (ctx : WalkCtx) (cl : Classifiers)
    (rp p : List String) (e : FSEntry) (em : List dirStats)
    (hwf : FSEntry.wf e) (hok : walkFolder ctx cl rp p e = (em, none)) :
    (∃ em₀ last, em = em₀ ++ [last] ∧ last.Path = filepathClean p ∧
      ∀ r ∈ em₀, strictAnc p r.Path) ∧ bottomUp em := by
  obtain ⟨-, -, -, h4⟩ := walk_master ctx cl rp p e hwf em none hok
  obtain ⟨em₀, last, hem, hp, hstrict, hbu⟩ := h4 rfl
  exact ⟨⟨em₀, last, hem, hp, hstrict⟩, hbu⟩

/-- Witness for C1 at a concrete three-directory tree (one included child,
one hidden child, one ignore-marked child). -/
theorem walkFolder_bottom_up_witness :
    FSEntry.wf tScenario ∧
    walkFolder ctxW clW [] [] tScenario =
      ([⟨["a"], 7, false, false, 1⟩, ⟨[], 10, false, false, 0⟩], none) ∧
    ((∃ em₀ last,
        [(⟨["a"], 7, false, false, 1⟩ : dirStats), ⟨[], 10, false, false, 0⟩] =
          em₀ ++ [last] ∧ last.Path = filepathClean [] ∧
        ∀ r ∈ em₀, strictAnc [] r.Path) ∧
      bottomUp [⟨["a"], 7, false, false, 1⟩, ⟨[], 10, false, false, 0⟩]) := by
  have hwf : FSEntry.wf tScenario := by
    simp +decide [tScenario, exScenario, eA, eHidden, eMarked, FSEntry.wf, wfAll, ename]
  have hldA : loadDir clW ["a"] eA = .ok ([], ⟨[], 7, false, false, 1⟩) := rfl
  have hA : walkFolder ctxW clW [] (["a"]) eA =
      ([⟨["a"], 7, false, false, 1⟩], none) :=
    walkFolder_ok_none ctxW [] hldA (walkChildren_nil ctxW clW [] ["a"])
  have hw1 : walkChildren ctxW clW [] [] [eA] =
      ([⟨["a"], 7, false, false, 1⟩], none) :=
    walkChildren_cons_ok hA (walkChildren_nil ctxW clW [] [])
  have hldR : loadDir clW [] tScenario = .ok ([eA], ⟨[], 10, false, false, 0⟩) := rfl
  have hok : walkFolder ctxW clW [] [] tScenario =
      ([⟨["a"], 7, false, false, 1⟩, ⟨[], 10, false, false, 0⟩], none) :=
    walkFolder_ok_none ctxW [] hldR hw1
  exact ⟨hwf, hok, walkFolder_bottom_up ctxW clW [] [] tScenario _ hwf hok⟩

/-- C2: a failing stat or listing of any visited directory aborts the
whole walk.  The result channel always carries exactly one close signal,
as its last event; a root that cannot be loaded produces zero records and
the error; the error of `walkFolder` is returned unchanged to the caller
of `walkDirTree` together with the records emitted before the failure; and
on a failing walk no emitted record's path is an ancestor of (or equal to)
the failing path — neither the failing directory nor any of its ancestors
has a record. -/
theorem walk_fatal_abort :
    (∀ (ctx : WalkCtx) (cl : Classifiers) (rf : List String) (e : FSEntry),
      (walkDirTree ctx cl rf e).1.countP isClosedEv = 1 ∧
      (walkDirTree ctx cl rf e).1.getLast? = some WEvent.closed) ∧
    (∀ (ctx : WalkCtx) (cl : Classifiers) (rf : List String) (e : FSEntry)
      (fp : List String), loadDir cl rf e = .error fp →
      walkDirTree ctx cl rf e = ([WEvent.closed], some fp)) ∧
    (∀ (ctx : WalkCtx) (cl : Classifiers) (rf : List String) (e : FSEntry)
      (em : List dirStats) (res : Option (List String)),
      walkFolder ctx cl rf rf e = (em, res) →
      walkDirTree ctx cl rf e = (em.map WEvent.record ++ [WEvent.closed], res)) ∧
    (∀ (ctx : WalkCtx) (cl : Classifiers) (rp p : List String) (e : FSEntry)
      (em : List dirStats) (fp : List String), FSEntry.wf e →
      walkFolder ctx cl rp p e = (em, some fp) →
      ∀ r ∈ em, ¬ pathLe r.Path fp) := by
  refine ⟨?_, ?_, ?_, ?_⟩
  · intro ctx cl rf e
    cases h : walkFolder ctx cl rf rf e with
    | mk em res =>
      rw [walkDirTree_eq ctx cl rf e h]
      exact ⟨countP_closed_events em, by rw [List.getLast?_concat]⟩
  · intro ctx cl rf e fp h
    rw [walkDirTree_eq ctx cl rf e (walkFolder_error ctx rf h)]
    rfl
  · intro ctx cl rf e em res h
    exact walkDirTree_eq ctx cl rf e h
  · intro ctx cl rp p e em fp hwf h r hr
    obtain ⟨-, -, h3, -⟩ := walk_master ctx cl rp p e hwf em (some fp) h
    exact (h3 fp rfl).2 r hr

/-- Witness for C2: a root whose listing fails yields zero records and the
error, and a failing second child aborts after the first child's record,
whose path is not an ancestor of the failing path. -/
theorem walk_fatal_abort_witness :
    (loadDir clW ["r"] tRootFail = .error ["r"] ∧
      walkDirTree ctxW clW ["r"] tRootFail = ([WEvent.closed], some ["r"])) ∧
    (FSEntry.wf tChildFail ∧
      walkFolder ctxW clW [] [] tChildFail =
        ([⟨["a"], 7, false, false, 1⟩], some ["b"]) ∧
      ∀ r ∈ [(⟨["a"], 7, false, false, 1⟩ : dirStats)], ¬ pathLe r.Path ["b"]) := by
  have h1 : loadDir clW ["r"] tRootFail = .error ["r"] := rfl
  have hwf : FSEntry.wf tChildFail := by
    simp +decide [tChildFail, FSEntry.wf, wfAll, ename]
  have hldA : loadDir clW ["a"]
      (.dir "a" 1 false (some 1) false true (some [.file "song.mp3" 7])) =
      .ok ([], ⟨[], 7, false, false, 1⟩) := rfl
  have hA : walkFolder ctxW clW [] (["a"])
      (.dir "a" 1 false (some 1) false true (some [.file "song.mp3" 7])) =
      ([⟨["a"], 7, false, false, 1⟩], none) :=
    walkFolder_ok_none ctxW [] hldA (walkChildren_nil ctxW clW [] ["a"])
  have hldB : loadDir clW ["b"]
      (.dir "b" 1 false (some 1) false true none) = .error ["b"] := rfl
  have hB : walkFolder ctxW clW [] (["b"])
      (.dir "b" 1 false (some 1) false true none) = ([], some ["b"]) :=
    walkFolder_error ctxW [] hldB
  have hw1 : walkChildren ctxW clW [] []
      [.dir "a" 1 false (some 1) false true (some [.file "song.mp3" 7]),
       .dir "b" 1 false (some 1) false true none] =
      ([⟨["a"], 7, false, false, 1⟩], some ["b"]) :=
    walkChildren_cons_ok hA (walkChildren_cons_err hB)
  have hldR : loadDir clW [] tChildFail =
      .ok ([.dir "a" 1 false (some 1) false true (some [.file "song.mp3" 7]),
            .dir "b" 1 false (some 1) false true none],
           ⟨[], 0, false, false, 0⟩) := rfl
  have h2 : walkFolder ctxW clW [] [] tChildFail =
      ([⟨["a"], 7, false, false, 1⟩], some ["b"]) :=
    walkFolder_ok_some ctxW [] hldR hw1
  exact ⟨⟨h1, walk_fatal_abort.2.1 ctxW clW ["r"] tRootFail ["r"] h1⟩,
    ⟨hwf, h2, walk_fatal_abort.2.2.2 ctxW clW [] [] tChildFail _ ["b"] hwf h2⟩⟩

/-- C3 fails on the code as stated: with the cancellation token signalled
before the walk starts, the walker still descends into the subdirectory
`a` of the concrete tree, lists it and emits its record — it initiates new
directory listings after the token is signalled, because no function of
the file ever reads the token. -/
theorem walk_cancellation_cex :
    ctxOn.cancelled = true ∧
    walkDirTree ctxOn clW [] tCancel =
      ([WEvent.record ⟨["a"], 0, false, false, 0⟩,
        WEvent.record ⟨[], 0, false, false, 0⟩, WEvent.closed], none) := by
  refine ⟨rfl, ?_⟩
  have hldA : loadDir clW ["a"]
      (.dir "a" 0 false (some 0) false true (some [])) =
      .ok ([], ⟨[], 0, false, false, 0⟩) := rfl
  have hA : walkFolder ctxOn clW [] (["a"])
      (.dir "a" 0 false (some 0) false true (some [])) =
      ([⟨["a"], 0, false, false, 0⟩], none) :=
    walkFolder_ok_none ctxOn [] hldA (walkChildren_nil ctxOn clW [] ["a"])
  have hw1 : walkChildren ctxOn clW [] []
      [.dir "a" 0 false (some 0) false true (some [])] =
      ([⟨["a"], 0, false, false, 0⟩], none) :=
    walkChildren_cons_ok hA (walkChildren_nil ctxOn clW [] [])
  have hldR : loadDir clW [] tCancel =
      .ok ([.dir "a" 0 false (some 0) false true (some [])],
           ⟨[], 0, false, false, 0⟩) := rfl
  have hr : walkFolder ctxOn clW [] [] tCancel =
      ([⟨["a"], 0, false, false, 0⟩, ⟨[], 0, false, false, 0⟩], none) :=
    walkFolder_ok_none ctxOn [] hldR hw1
  rw [walkDirTree_eq ctxOn clW [] tCancel hr]
  rfl

/-- C3 (amended): the walker never consults the cancellation token.  The
walk output is identical for every token state (and every `rootPath`
argument), so a signalled token neither prevents new directory listings
nor changes the records or the error; the result stream is still
terminated by exactly one close event, in every case. -/
theorem walk_cancellation_independent :
    (∀ (ctx ctx' : WalkCtx) (cl : Classifiers) (rp rp' p : List String)
      (e : FSEntry), walkFolder ctx cl rp p e = walkFolder ctx' cl rp' p e) ∧
    (∀ (ctx ctx' : WalkCtx) (cl : Classifiers) (rf : List String) (e : FSEntry),
      walkDirTree ctx cl rf e = walkDirTree ctx' cl rf e) ∧
    (∀ (ctx : WalkCtx) (cl : Classifiers) (rf : List String) (e : FSEntry),
      (walkDirTree ctx cl rf e).1.countP isClosedEv = 1) := by
  refine ⟨fun ctx ctx' cl rp rp' p e => walkFolder_ctx_indep ctx cl rp p e ctx' rp',
    ?_, ?_⟩
  · intro ctx ctx' cl rf e
    cases h : walkFolder ctx cl rf rf e with
    | mk em res =>
      have h' : walkFolder ctx' cl rf rf e = (em, res) := by
        rw [← walkFolder_ctx_indep ctx cl rf rf e ctx' rf]
        exact h
      rw [walkDirTree_eq ctx cl rf e h, walkDirTree_eq ctx' cl rf e h']
  · intro ctx cl rf e
    cases h : walkFolder ctx cl rf rf e with
    | mk em res =>
      rw [walkDirTree_eq ctx cl rf e h]
      exact countP_closed_events em

/-- C4 fails on the code as stated: in a directory with stat time 5 whose
only entry is the excluded hidden subdirectory `.h` with `Lstat` time 10,
the emitted record's `modTime` is 10, while the maximum over the
directory's own time and its direct non-directory entries is 5 — the
excluded directory entry does contribute to the emitted maximum. -/
theorem modTime_spec_cex :
    walkFolder ctxW clW [] [] tHidden = ([⟨[], 10, false, false, 0⟩], none) ∧
    specModTime 5 exHidden = 5 ∧ (10 : Nat) ≠ 5 := by
  have hld : loadDir clW [] tHidden = .ok ([], ⟨[], 10, false, false, 0⟩) := rfl
  exact ⟨walkFolder_ok_none ctxW [] hld (walkChildren_nil ctxW clW [] []),
    by decide, by decide⟩

/-- C4 (amended): for every walk of a statable, listable directory that
completes without error, the final emitted record — the directory's own —
has `modTime` equal to the maximum of the directory's own stat time and
the `Lstat` times of exactly its leaf-processed direct entries: the
non-directory entries together with the excluded directory candidates;
recursed-into children and entries with failing symlink resolution
contribute nothing. -/
theorem modTime_formula (ctx : WalkCtx) (cl : Classifiers) (rp p : List String)
    (n : String) (mt : Nat) (lk : Bool) (m : Nat) (sk rd : Bool)
    (files : List FSEntry) (em : List dirStats)
    (h : walkFolder ctx cl rp p (.dir n mt lk (some m) sk rd (some files)) = (em, none)) :
    ∃ em₀ r, em = em₀ ++ [r] ∧
      r.ModTime = max m (listMax ((files.filter leafProcessed).map emtime)) := by
  obtain ⟨em₀, rfl⟩ := walkFolder_dir_success ctx cl rp p n mt lk m sk rd files em h
  refine ⟨em₀, dirRecord cl p m files, rfl, ?_⟩
  show max m (loadEntries cl files).2.maxMtime = _
  rw [loadEntries_maxMtime]

/-- Witness for C4 (amended) at the hidden-subdirectory tree. -/
theorem modTime_formula_witness :
    walkFolder ctxW clW [] [] tHidden = ([⟨[], 10, false, false, 0⟩], none) ∧
    ∃ em₀ r, [(⟨[], 10, false, false, 0⟩ : dirStats)] = em₀ ++ [r] ∧
      r.ModTime = max 5 (listMax ((exHidden.filter leafProcessed).map emtime)) := by
  have hld : loadDir clW [] tHidden = .ok ([], ⟨[], 10, false, false, 0⟩) := rfl
  have h : walkFolder ctxW clW [] [] tHidden = ([⟨[], 10, false, false, 0⟩], none) :=
    walkFolder_ok_none ctxW [] hld (walkChildren_nil ctxW clW [] [])
  exact ⟨h, modTime_formula ctxW clW [] [] "root" 0 false 5 false true exHidden _ h⟩

/-- C5 fails on the code as stated: in a directory whose only entry is the
excluded hidden subdirectory `.x.mp3` — a directory, not a file — whose
name passes the audio classifier of `clW`, the emitted record counts one
audio file, while the number of direct file (non-directory) entries
passing the classifier is zero. -/
theorem audioCount_spec_cex :
    walkFolder ctxW clW [] [] tAudioDir = ([⟨[], 3, false, false, 1⟩], none) ∧
    specAudioCount clW exAudioDir = 0 ∧ (1 : Nat) ≠ 0 := by
  have hld : loadDir clW [] tAudioDir = .ok ([], ⟨[], 3, false, false, 1⟩) := rfl
  exact ⟨walkFolder_ok_none ctxW [] hld (walkChildren_nil ctxW clW [] []),
    by decide, by decide⟩

/-- C5 (amended): for every walk of a statable, listable directory that
completes without error, the final emitted record counts (modulo `2^32`,
the wrapping `uint32` increment) exactly the leaf-processed direct entries
whose name passes the audio classifier — these are the non-directory
entries plus the excluded directory candidates, entries in subdirectories
and skipped invalid symlinks never contribute — and an audio-classified
leaf entry is never also tested for playlist/image, while each non-audio
leaf entry ORs its playlist and image classifier results into
`hasPlaylist`/`hasImage`. -/
theorem leafStats_formula (ctx : WalkCtx) (cl : Classifiers) (rp p : List String)
    (n : String) (mt : Nat) (lk : Bool) (m : Nat) (sk rd : Bool)
    (files : List FSEntry) (em : List dirStats)
    (h : walkFolder ctx cl rp p (.dir n mt lk (some m) sk rd (some files)) = (em, none)) :
    ∃ em₀ r, em = em₀ ++ [r] ∧
      r.AudioFilesCount =
        (files.filter (fun f => leafProcessed f && cl.isAudioFile (ename f))).length
          % uint32Card ∧
      r.HasPlaylist = files.any (fun f =>
        leafProcessed f && !cl.isAudioFile (ename f) && cl.isPlaylist (ename f)) ∧
      r.HasImages = files.any (fun f =>
        leafProcessed f && !cl.isAudioFile (ename f) && cl.isImageFile (ename f)) := by
  obtain ⟨em₀, rfl⟩ := walkFolder_dir_success ctx cl rp p n mt lk m sk rd files em h
  refine ⟨em₀, dirRecord cl p m files, rfl, ?_, ?_, ?_⟩
  · show (loadEntries cl files).2.audio = _
    rw [loadEntries_audio]
  · show (loadEntries cl files).2.hasPlaylist = _
    rw [loadEntries_hasPlaylist]
  · show (loadEntries cl files).2.hasImages = _
    rw [loadEntries_hasImages]

/-- Witness for C5 (amended) at the audio-named hidden-subdirectory tree. -/
theorem leafStats_formula_witness :
    walkFolder ctxW clW [] [] tAudioDir = ([⟨[], 3, false, false, 1⟩], none) ∧
    ∃ em₀ r, [(⟨[], 3, false, false, 1⟩ : dirStats)] = em₀ ++ [r] ∧
      r.AudioFilesCount =
        (exAudioDir.filter (fun f => leafProcessed f && clW.isAudioFile (ename f))).length
          % uint32Card ∧
      r.HasPlaylist = exAudioDir.any (fun f =>
        leafProcessed f && !clW.isAudioFile (ename f) && clW.isPlaylist (ename f)) ∧
      r.HasImages = exAudioDir.any (fun f =>
        leafProcessed f && !clW.isAudioFile (ename f) && clW.isImageFile (ename f)) := by
  have hld : loadDir clW [] tAudioDir = .ok ([], ⟨[], 3, false, false, 1⟩) := rfl
  have h : walkFolder ctxW clW [] [] tAudioDir = ([⟨[], 3, false, false, 1⟩], none) :=
    walkFolder_ok_none ctxW [] hld (walkChildren_nil ctxW clW [] [])
  exact ⟨h, leafStats_formula ctxW clW [] [] "root" 0 false 0 false true exAudioDir _ h⟩

/-- C6: a subdirectory candidate is recursed into exactly when it passes
the inclusion policy, evaluated in order: the children of a loaded
directory are precisely the listing entries passing `includedEntry`, in
listing order; a hidden name excludes unconditionally, for every value of
the ignore-marker stat (it is never consulted); on a non-hidden name the
ignore test is exactly the marker stat; an ignored candidate is excluded
whatever its readability; for a non-ignored candidate inclusion is exactly
the readability check; and over a well-formed tree an excluded candidate's
subtree produces zero records — no emitted record's path lies at or below
the excluded child's path. -/
theorem inclusion_policy :
    (∀ (cl : Classifiers) (p : List String) (e : FSEntry)
      (children : List FSEntry) (stats : dirStats),
      loadDir cl p e = .ok (children, stats) →
      ∃ n mt lk m sk rd files, e = .dir n mt lk (some m) sk rd (some files) ∧
        children = files.filter includedEntry) ∧
    (∀ (n : String) (mt : Nat) (lk : Bool) (st : Option Nat) (sk rd : Bool)
      (lst : Option (List FSEntry)), startsWithDot n = true →
      isDirIgnored (.dir n mt lk st sk rd lst) = true) ∧
    (∀ (n : String) (mt : Nat) (lk : Bool) (st : Option Nat) (sk rd : Bool)
      (lst : Option (List FSEntry)), startsWithDot n = false →
      isDirIgnored (.dir n mt lk st sk rd lst) = sk) ∧
    (∀ f : FSEntry, isDirIgnored f = true → includedEntry f = false) ∧
    (∀ f : FSEntry, isDirOrSymlinkToDir f = .ok true → isDirIgnored f = false →
      includedEntry f = isDirReadable f) ∧
    (∀ (ctx : WalkCtx) (cl : Classifiers) (rp p : List String) (n : String)
      (mt : Nat) (lk : Bool) (m : Nat) (sk rd : Bool) (files : List FSEntry)
      (f : FSEntry) (em : List dirStats) (res : Option (List String)),
      FSEntry.wf (.dir n mt lk (some m) sk rd (some files)) →
      f ∈ files → isDirOrSymlinkToDir f = .ok true → includedEntry f = false →
      walkFolder ctx cl rp p (.dir n mt lk (some m) sk rd (some files)) = (em, res) →
      ∀ r ∈ em, ¬ pathLe (p ++ [ename f]) r.Path) := by
  refine ⟨?_, ?_, ?_, ?_, ?_, ?_⟩
  · intro cl p e children stats h
    obtain ⟨n, mt, lk, m, sk, rd, files, rfl, hch, -⟩ := loadDir_ok_inv h
    exact ⟨n, mt, lk, m, sk, rd, files, rfl, hch⟩
  · intro n mt lk st sk rd lst h
    exact isDirIgnored_hidden mt lk st sk rd lst h
  · intro n mt lk st sk rd lst h
    exact isDirIgnored_not_hidden mt lk st sk rd lst h
  · intro f h
    exact includedEntry_of_ignored h
  · intro f hc h
    exact includedEntry_of_candidate hc h
  · intro ctx cl rp p n mt lk m sk rd files f em res hwf hmem hcand hexc hwalk r hr hle
    obtain ⟨-, h2, -, -⟩ :=
      walk_master ctx cl rp p _ hwf em res hwalk
    have hnodup : (files.map ename).Nodup := by
      rw [FSEntry.wf] at hwf
      exact hwf.1
    rcases h2 _ _ (loadDir_dir_some cl p n mt lk m sk rd files) r hr with hp | ⟨c, hc, hlec⟩
    · rw [hp] at hle
      obtain ⟨s, hs⟩ := hle
      rw [List.append_assoc] at hs
      conv_rhs at hs => rw [← List.append_nil p]
      have h0 := List.append_cancel_left hs
      simp at h0
    · rw [loadEntries_children] at hc
      have hcm : c ∈ files := List.mem_of_mem_filter hc
      have hcinc : includedEntry c = true := List.of_mem_filter hc
      obtain ⟨s1, hs1⟩ := hle
      obtain ⟨s2, hs2⟩ := hlec
      have hname : ename f = ename c := by
        have h12 : p ++ ename f :: s1 = p ++ ename c :: s2 := by
          have h0 := hs1.trans hs2.symm
          simpa using h0
        exact child_name_eq h12
      have hfc : f = c := List.inj_on_of_nodup_map hnodup hmem hcm hname
      rw [← hfc, hexc] at hcinc
      cases hcinc

/-- Witness for C6: at the concrete scenario tree, the hidden candidate is
excluded and no emitted record lies at or below its path. -/
theorem inclusion_policy_witness :
    FSEntry.wf tScenario ∧ eHidden ∈ exScenario ∧
    isDirOrSymlinkToDir eHidden = .ok true ∧ includedEntry eHidden = false ∧
    walkFolder ctxW clW [] [] tScenario =
      ([⟨["a"], 7, false, false, 1⟩, ⟨[], 10, false, false, 0⟩], none) ∧
    ∀ r ∈ [(⟨["a"], 7, false, false, 1⟩ : dirStats), ⟨[], 10, false, false, 0⟩],
      ¬ pathLe ([] ++ [ename eHidden]) r.Path := by
  have hwf : FSEntry.wf tScenario := by
    simp +decide [tScenario, exScenario, eA, eHidden, eMarked, FSEntry.wf, wfAll, ename]
  have hmem : eHidden ∈ exScenario := by simp [exScenario]
  have hcand : isDirOrSymlinkToDir eHidden = .ok true := rfl
  have hexc : includedEntry eHidden = false := by
    simp +decide [includedEntry, eHidden, isDirOrSymlinkToDir, isDirIgnored,
      isDirReadable, startsWithDot]
  have hldA : loadDir clW ["a"] eA = .ok ([], ⟨[], 7, false, false, 1⟩) := rfl
  have hA : walkFolder ctxW clW [] (["a"]) eA =
      ([⟨["a"], 7, false, false, 1⟩], none) :=
    walkFolder_ok_none ctxW [] hldA (walkChildren_nil ctxW clW [] ["a"])
  have hw1 : walkChildren ctxW clW [] [] [eA] =
      ([⟨["a"], 7, false, false, 1⟩], none) :=
    walkChildren_cons_ok hA (walkChildren_nil ctxW clW [] [])
  have hldR : loadDir clW [] tScenario = .ok ([eA], ⟨[], 10, false, false, 0⟩) := rfl
  have hwalk : walkFolder ctxW clW [] [] tScenario =
      ([⟨["a"], 7, false, false, 1⟩, ⟨[], 10, false, false, 0⟩], none) :=
    walkFolder_ok_none ctxW [] hldR hw1
  exact ⟨hwf, hmem, hcand, hexc, hwalk,
    inclusion_policy.2.2.2.2.2 ctxW clW [] [] "root" 0 false 5 false true
      exScenario eHidden _ none hwf hmem hcand hexc hwalk⟩

/-- C7: an entry whose symlink resolution fails is skipped as that single
entry: the walk of a directory whose listing carries such an entry is
identical, record for record and error for error, to the walk of the same
directory without it — the entry is not recursed into, contributes nothing
to its parent's statistics, the remaining siblings are processed, the walk
does not fail because of it, and the containing directory's record is
still emitted, reflecting only the remaining entries. -/
theorem broken_symlink_skipped (ctx : WalkCtx) (cl : Classifiers)
    (rp p : List String) (n : String) (mt : Nat) (lk : Bool)
    (st : Option Nat) (sk rd : Bool) (b : FSEntry) (l1 l2 : List FSEntry)
    (hb : isDirOrSymlinkToDir b = .error ()) :
    walkFolder ctx cl rp p (.dir n mt lk st sk rd (some (l1 ++ b :: l2))) =
      walkFolder ctx cl rp p (.dir n mt lk st sk rd (some (l1 ++ l2))) := by
  cases st with
  | none =>
    rw [walkFolder_error ctx rp (loadDir_stat_error cl p n mt lk sk rd _),
        walkFolder_error ctx rp (loadDir_stat_error cl p n mt lk sk rd _)]
  | some m =>
    have h1 := loadDir_dir_some cl p n mt lk m sk rd (l1 ++ b :: l2)
    rw [loadEntries_skip_insert cl hb l1 l2] at h1
    rw [walkFolder_ok ctx rp h1,
        walkFolder_ok ctx rp (loadDir_dir_some cl p n mt lk m sk rd (l1 ++ l2))]

/-- Witness for C7: a dangling symlink amid one audio file; the walk
equals the walk without the dangling entry, and the directory's record is
still emitted, reflecting the remaining file. -/
theorem broken_symlink_skipped_witness :
    isDirOrSymlinkToDir (FSEntry.linkBroken "bad" 99) = .error () ∧
    walkFolder ctxW clW [] []
        (.dir "root" 0 false (some 5) false true
          (some ([FSEntry.file "song.mp3" 7] ++ FSEntry.linkBroken "bad" 99 :: []))) =
      walkFolder ctxW clW [] []
        (.dir "root" 0 false (some 5) false true
          (some ([FSEntry.file "song.mp3" 7] ++ []))) ∧
    walkFolder ctxW clW [] []
        (.dir "root" 0 false (some 5) false true
          (some [FSEntry.file "song.mp3" 7, FSEntry.linkBroken "bad" 99])) =
      ([⟨[], 7, false, false, 1⟩], none) := by
  have hld : loadDir clW []
      (.dir "root" 0 false (some 5) false true
        (some [FSEntry.file "song.mp3" 7, FSEntry.linkBroken "bad" 99])) =
      .ok ([], ⟨[], 7, false, false, 1⟩) := rfl
  exact ⟨rfl, broken_symlink_skipped ctxW clW [] [] "root" 0 false (some 5)
    false true (FSEntry.linkBroken "bad" 99) [FSEntry.file "song.mp3" 7] [] rfl,
    walkFolder_ok_none ctxW [] hld (walkChildren_nil ctxW clW [] [])⟩

/-- C8: for every successfully emitted directory record, `modTime` is at
least the directory's own stat time and at least the `Lstat` time of every
direct file entry — a regular file or a symlink resolving to a
non-directory — of that directory. -/
theorem modTime_monotone (ctx : WalkCtx) (cl : Classifiers) (rp p : List String)
    (n : String) (mt : Nat) (lk : Bool) (m : Nat) (sk rd : Bool)
    (files : List FSEntry) (em : List dirStats)
    (h : walkFolder ctx cl rp p (.dir n mt lk (some m) sk rd (some files)) = (em, none)) :
    ∃ em₀ r, em = em₀ ++ [r] ∧ m ≤ r.ModTime ∧
      ∀ (n' : String) (mt' : Nat),
        (FSEntry.file n' mt' ∈ files ∨ FSEntry.linkFile n' mt' ∈ files) →
        mt' ≤ r.ModTime := by
  obtain ⟨em₀, rfl⟩ := walkFolder_dir_success ctx cl rp p n mt lk m sk rd files em h
  refine ⟨em₀, dirRecord cl p m files, rfl,
    Nat.le_max_left m (loadEntries cl files).2.maxMtime, ?_⟩
  rintro n' mt' (hm | hm)
  · have h1 := loadEntries_maxMtime_ge cl hm (leafProcessed_file n' mt')
    exact Nat.le_trans h1 (Nat.le_max_right m _)
  · have h1 := loadEntries_maxMtime_ge cl hm (leafProcessed_linkFile n' mt')
    exact Nat.le_trans h1 (Nat.le_max_right m _)

/-- Witness for C8 at a two-file directory whose stat time is lower than
both file times. -/
theorem modTime_monotone_witness :
    walkFolder ctxW clW [] []
        (.dir "root" 0 false (some 5) false true
          (some [FSEntry.file "song.mp3" 7, FSEntry.linkFile "x" 9])) =
      ([⟨[], 9, false, false, 1⟩], none) ∧
    ∃ em₀ r, [(⟨[], 9, false, false, 1⟩ : dirStats)] = em₀ ++ [r] ∧
      5 ≤ r.ModTime ∧
      ∀ (n' : String) (mt' : Nat),
        (FSEntry.file n' mt' ∈ [FSEntry.file "song.mp3" 7, FSEntry.linkFile "x" 9] ∨
          FSEntry.linkFile n' mt' ∈ [FSEntry.file "song.mp3" 7, FSEntry.linkFile "x" 9]) →
        mt' ≤ r.ModTime := by
  have h : walkFolder ctxW clW [] []
      (.dir "root" 0 false (some 5) false true
        (some [FSEntry.file "song.mp3" 7, FSEntry.linkFile "x" 9])) =
      ([⟨[], 9, false, false, 1⟩], none) := by
    have hld : loadDir clW []
        (.dir "root" 0 false (some 5) false true
          (some [FSEntry.file "song.mp3" 7, FSEntry.linkFile "x" 9])) =
        .ok ([], ⟨[], 9, false, false, 1⟩) := rfl
    exact walkFolder_ok_none ctxW [] hld (walkChildren_nil ctxW clW [] [])
  exact ⟨h, modTime_monotone ctxW clW [] [] "root" 0 false 5 false true _ _ h⟩

/-- C9: a direct child entry that is a subdirectory candidate (directory or
symlink to one) but is excluded by the policy — ignored name or marker, or
unreadable — is processed by `loadDir` exactly as if it were a plain file
with the same name and `Lstat` time: its time enters the parent's
`modTime` maximum and its name is fed to the audio/playlist/image
classifiers, so an excluded directory can increment the parent's
`audioFileCount` or set `hasPlaylist`/`hasImage`. -/
theorem excluded_dir_as_leaf (cl : Classifiers) (p : List String) (n : String)
    (mt : Nat) (lk : Bool) (st : Option Nat) (sk rd : Bool) (d : FSEntry)
    (l1 l2 : List FSEntry) (hd : isDirOrSymlinkToDir d = .ok true)
    (hex : (!(isDirIgnored d) && isDirReadable d) = false) :
    loadDir cl p (.dir n mt lk st sk rd (some (l1 ++ d :: l2))) =
      loadDir cl p
        (.dir n mt lk st sk rd
          (some (l1 ++ FSEntry.file (ename d) (emtime d) :: l2))) := by
  cases st with
  | none => rfl
  | some m =>
    rw [loadDir_dir_some, loadDir_dir_some, loadEntries_excluded_dir cl hd hex l1 l2]

/-- Witness for C9: the excluded hidden directory `.x.mp3` is loaded
exactly like a file named `.x.mp3`, and it increments the parent's audio
count and raises its `modTime`. -/
theorem excluded_dir_as_leaf_witness :
    isDirOrSymlinkToDir (FSEntry.dir ".x.mp3" 3 false (some 0) false true (some [])) =
      .ok true ∧
    (!(isDirIgnored (FSEntry.dir ".x.mp3" 3 false (some 0) false true (some []))) &&
      isDirReadable (FSEntry.dir ".x.mp3" 3 false (some 0) false true (some []))) = false ∧
    loadDir clW [] (.dir "root" 0 false (some 0) false true
        (some ([] ++ FSEntry.dir ".x.mp3" 3 false (some 0) false true (some []) :: []))) =
      loadDir clW [] (.dir "root" 0 false (some 0) false true
        (some ([] ++ FSEntry.file ".x.mp3" 3 :: []))) ∧
    loadDir clW [] tAudioDir =
      .ok ([], ⟨[], 3, false, false, 1⟩) := by
  have hd : isDirOrSymlinkToDir
      (FSEntry.dir ".x.mp3" 3 false (some 0) false true (some [])) = .ok true := rfl
  have hex : (!(isDirIgnored (FSEntry.dir ".x.mp3" 3 false (some 0) false true (some []))) &&
      isDirReadable (FSEntry.dir ".x.mp3" 3 false (some 0) false true (some []))) = false := by
    simp +decide [isDirIgnored, isDirReadable, startsWithDot]
  exact ⟨hd, hex, excluded_dir_as_leaf clW [] "root" 0 false (some 0) false true
    _ [] [] hd hex, rfl⟩

/-- C10: the walk terminates on every representable filesystem.  The
fuel-indexed walker models the code's unbounded recursion through
(possibly symlinked) child paths with an explicit call-stack budget; as
soon as the budget exceeds the height of the tree the recursion completes
and computes the total walk — so the call depth is bounded by the tree
depth, and termination holds for every finite filesystem whose directory
graph is acyclic (the inductive filesystem model represents exactly those:
a directory symlink carries its target subtree inline, so a symlink
resolving to an ancestor of the link is not representable, matching the
claim's precondition; the code itself performs no cycle detection). -/
theorem walk_terminates (ctx : WalkCtx) (cl : Classifiers) (rp p : List String)
    (e : FSEntry) (fuel : Nat) (hf : FSEntry.height e < fuel) :
    walkFolderF ctx cl fuel rp p e = some (walkFolder ctx cl rp p e) :=
  (walkF_complete ctx cl rp fuel).1 p e hf

/-- Witness for C10 at the scenario tree with call-stack budget 3. -/
theorem walk_terminates_witness :
    FSEntry.height tScenario < 3 ∧
    walkFolderF ctxW clW 3 [] [] tScenario = some (walkFolder ctxW clW [] [] tScenario) := by
  have hh : FSEntry.height tScenario < 3 := by
    simp +decide [tScenario, exScenario, eA, eHidden, eMarked, FSEntry.height, heightList]
  exact ⟨hh, walk_terminates ctxW clW [] [] tScenario 3 hh⟩
